import Mathlib

/-!
Verification of the state reconciliation engine of `Jenkins.py`:
snapshot model, diff/classification of status indicators, event dispatch
with per-job error isolation, and the persistence contract.
-/

namespace JenkinsStatus

/-- An ordered mapping from job name to status indicator (color), as produced
by iterating a Python `OrderedDict`. -/
abbrev Snapshot := List (String × String)

/-- Python dict lookup `d[name]` / `name in d`: the value at the first
matching key, if any. -/
def lookupJob : Snapshot → String → Option String
  | [], _ => none
  | (k, v) :: rest, name => if k = name then some v else lookupJob rest name

/-- Contents of a persisted file: either the JSON dump of `self.jobs`
(`json.dumps` / `json.load` round-trip structurally), or a plain text file. -/
inductive FileData where
  | jsonData (jobs : Option Snapshot)
  | textData (content : String)
deriving DecidableEq

/-- The durable store: path to file contents. -/
abbrev FS := String → Option FileData

/-- `write_file`: overwrite the file at `path`. -/
def fsWrite (fs : FS) (path : String) (d : FileData) : FS :=
  fun q => if q = path then some d else fs q

def emptyFS : FS := fun _ => none

/-- `os.path.join` for the relative file names used by the program. -/
def pathJoin (a b : String) : String :=
  if a = "" then b
  else if a.data.getLast? = some '/' then a ++ b
  else a ++ "/" ++ b

/-- The event-sink handler table `self.funcs`. Each handler returns `true`
when it runs without raising and `false` when it raises. -/
structure Funcs where
  created : String → Bool
  deleted : String → Bool
  passed : String → Bool
  failed : String → Bool
  started : String → Bool
  aborted : String → Bool
  unknown : String → String → String → Bool → Bool

/-- One attempted handler invocation, with its arguments. -/
inductive Call where
  | c1 (func_id : String) (name : String)
  | cUnknown (name old_color new_color : String) (verbose : Bool)
deriving DecidableEq

/-- The job name an attempted call is about. -/
def callJob : Call → String
  | .c1 _ name => name
  | .cUnknown name _ _ _ => name

/-- Python `sub in s` substring test. -/
def strContains (s sub : String) : Bool :=
  s.data.tails.any (fun t => sub.data.isPrefixOf t)

/-- `Jenkins.call` for the one-argument handlers: run the handler for
`func_id`; return `func_id` on success and `"function-error"` if it raised. -/
def call1 (funcs : Funcs) (func_id name : String) : String :=
  let ok : Bool :=
    if func_id = "created" then funcs.created name
    else if func_id = "deleted" then funcs.deleted name
    else if func_id = "passed" then funcs.passed name
    else if func_id = "failed" then funcs.failed name
    else if func_id = "started" then funcs.started name
    else if func_id = "aborted" then funcs.aborted name
    else false
  if ok then func_id else "function-error"

/-- `Jenkins.call` for the four-argument `"unknown"` handler. -/
def callUnknown (funcs : Funcs) (name old_color new_color : String)
    (verbose : Bool) : String :=
  if funcs.unknown name old_color new_color verbose then "unknown"
  else "function-error"

/-- `Jenkins.status_change`: classify an indicator change and dispatch the
matching handler. Returns the dispatch outcome and the attempted call. -/
def status_change (funcs : Funcs) (verbose : Bool)
    (name old_color new_color : String) : String × Call :=
  if strContains new_color "anime" && !strContains old_color "anime" then
    (call1 funcs "started" name, Call.c1 "started" name)
  else if new_color = "aborted" then
    (call1 funcs "aborted" name, Call.c1 "aborted" name)
  else if new_color = "red" then
    (call1 funcs "failed" name, Call.c1 "failed" name)
  else if new_color = "blue" then
    (call1 funcs "passed" name, Call.c1 "passed" name)
  else
    (callUnknown funcs name old_color new_color verbose,
      Call.cUnknown name old_color new_color verbose)

/-- Body of the first loop of `Jenkins.offline_update`: a job of the old
snapshot that is absent from the new one is reported deleted. -/
def del_f (funcs : Funcs) (new_jobs : Snapshot) (p : String × String) :
    Option (String × String × Call) :=
  if (lookupJob new_jobs p.1).isSome then none
  else some (p.1, call1 funcs "deleted" p.1, Call.c1 "deleted" p.1)

/-- Body of the second loop of `Jenkins.offline_update`: a job of the new
snapshot is reported created when absent from the old snapshot, classified
via `status_change` when its indicator changed, and skipped otherwise. -/
def upd_f (funcs : Funcs) (verbose : Bool) (old_jobs : Snapshot)
    (p : String × String) : Option (String × String × Call) :=
  match lookupJob old_jobs p.1 with
  | none => some (p.1, call1 funcs "created" p.1, Call.c1 "created" p.1)
  | some old_color =>
    if p.2 = old_color then none
    else some (p.1, status_change funcs verbose p.1 old_color p.2)

def del_steps (funcs : Funcs) (old_jobs new_jobs : Snapshot) :
    List (String × String × Call) :=
  old_jobs.filterMap (del_f funcs new_jobs)

def upd_steps (funcs : Funcs) (verbose : Bool) (old_jobs new_jobs : Snapshot) :
    List (String × String × Call) :=
  new_jobs.filterMap (upd_f funcs verbose old_jobs)

/-- `Jenkins.offline_update`: process deletions first, then creations and
indicator changes, in snapshot order. Returns the internal `changes`
mapping (job name to dispatch outcome, in insertion order) and the list of
attempted handler calls, in dispatch order. The Python function falls off
its end, so its own return value is `None` (see `update`). -/
def offline_update (funcs : Funcs) (verbose : Bool)
    (old_jobs new_jobs : Snapshot) : List (String × String) × List Call :=
  let steps := del_steps funcs old_jobs new_jobs ++
    upd_steps funcs verbose old_jobs new_jobs
  (steps.map (fun s => (s.1, s.2.1)), steps.map (fun s => s.2.2))

/-- Python truthiness of `self.jobs` in `if not self.jobs:`: falsy when the
attribute is still `None` or holds an empty dict. -/
def jobsFalsy : Option Snapshot → Bool
  | none => true
  | some [] => true
  | some (_ :: _) => false

/-- The mutable state of a `Jenkins` instance (online mode, after
`__init__` has normalized the URL), together with the durable store. -/
structure Jenkins where
  url : String
  verbose : Bool
  directory : String
  funcs : Funcs
  jobs : Option Snapshot
  files : FS

/-- `Jenkins.dump_all`: write the JSON dump of `self.jobs` and the server
URL into the configured directory. -/
def dump_all (st : Jenkins) : FS :=
  fsWrite
    (fsWrite st.files (pathJoin st.directory "jenkins_jobs.json")
      (FileData.jsonData st.jobs))
    (pathJoin st.directory "jenkins_server.txt") (FileData.textData st.url)

/-- The `if self.directory: self.dump_all()` step of `Jenkins.update`. -/
def dump_step (st : Jenkins) : Jenkins :=
  if st.directory = "" then st else { st with files := dump_all st }

/-- Result of one `Jenkins.update` cycle: the new instance state, the value
returned to the caller, and the attempted handler calls in order. -/
structure UpdateResult where
  state : Jenkins
  changes : Option (List (String × String))
  trace : List Call

/-- `Jenkins.update`, with the freshly fetched snapshot passed in for the
out-of-scope `internal_get`. When `self.jobs` is falsy the new snapshot is
adopted with no dispatch; otherwise `offline_update` runs. In both cases
the returned `changes` is `None`: `offline_update` has no return
statement, so `changes = self.offline_update(new_jobs)` binds `None`. -/
def update (st : Jenkins) (fetched : Snapshot) : UpdateResult :=
  if jobsFalsy st.jobs then
    { state := dump_step { st with jobs := some fetched },
      changes := none, trace := [] }
  else
    { state := dump_step { st with jobs := some fetched },
      changes := none,
      trace := (offline_update st.funcs st.verbose (st.jobs.getD []) fetched).2 }

/-- Python `f.readline()`: the first line of the content, including its
newline when present. -/
def readLineChars : List Char → List Char
  | [] => []
  | c :: rest => if c = '\n' then [c] else c :: readLineChars rest

def readLine (s : String) : String := String.mk (readLineChars s.data)

/-- `Jenkins.load_files` wrapped in the `try`/`except FileNotFoundError` of
`__init__`: read the stored server URL; on mismatch the history is
discarded (state unchanged); on match load the stored snapshot from
`self.directory + json_path` (note: string concatenation, not
`os.path.join`). A missing file leaves the state unchanged. -/
def try_load_files (st : Jenkins) : Jenkins :=
  match st.files (pathJoin st.directory "jenkins_server.txt") with
  | some (FileData.textData content) =>
    if readLine content = st.url then
      match st.files (st.directory ++ "jenkins_jobs.json") with
      | some (FileData.jsonData j) => { st with jobs := j }
      | _ => st
    else st
  | _ => st

/-- The `while url[-1] == "/"` loop of `Jenkins.__init__` on the reversed
character list: `none` models the `IndexError` raised once the string is
exhausted. -/
def dropLeadingSlashes : List Char → Option (List Char)
  | [] => none
  | c :: rest => if c = '/' then dropLeadingSlashes rest else some (c :: rest)

def stripTrailing (url : String) : Option String :=
  (dropLeadingSlashes url.data.reverse).map (fun l => String.mk l.reverse)

/-- URL normalization of `Jenkins.__init__`: strip trailing slashes, then
prepend `"https://"` when the string does not contain `"http"`. -/
def init_url (url : String) : Option String :=
  (stripTrailing url).map
    (fun u => if strContains u "http" then u else "https://" ++ u)

/-- The default handlers (`job_created`, ..., `unknown_colors`): printing
never raises. -/
def allOk : Funcs :=
  { created := fun _ => true, deleted := fun _ => true,
    passed := fun _ => true, failed := fun _ => true,
    started := fun _ => true, aborted := fun _ => true,
    unknown := fun _ _ _ _ => true }

/-- A handler table whose `deleted` handler always raises. -/
def failDeleted : Funcs := { allOk with deleted := fun _ => false }

/-! ## Basic lemmas about lookups -/

lemma lookupJob_none_forall {s : Snapshot} {j : String}
    (h : lookupJob s j = none) : ∀ p ∈ s, p.1 ≠ j := by
  induction s with
  | nil => intro p hp; cases hp
  | cons q rest ih =>
    obtain ⟨k, v⟩ := q
    intro p hp
    by_cases hk : k = j
    · simp only [lookupJob, if_pos hk] at h; cases h
    · simp only [lookupJob, if_neg hk] at h
      cases hp with
      | head => exact hk
      | tail _ hp2 => exact ih h p hp2

lemma forall_lookupJob_none {s : Snapshot} {j : String}
    (h : ∀ p ∈ s, p.1 ≠ j) : lookupJob s j = none := by
  induction s with
  | nil => rfl
  | cons q rest ih =>
    obtain ⟨k, v⟩ := q
    have hk : k ≠ j := h (k, v) (List.mem_cons_self _ _)
    simp only [lookupJob, if_neg hk]
    exact ih (fun p hp => h p (List.mem_cons_of_mem _ hp))

lemma lookupJob_isSome_of_mem {s : Snapshot} {p : String × String}
    (h : p ∈ s) : (lookupJob s p.1).isSome = true := by
  induction s with
  | nil => cases h
  | cons q rest ih =>
    obtain ⟨k, v⟩ := q
    by_cases hk : k = p.1
    · simp only [lookupJob, if_pos hk, Option.isSome_some]
    · simp only [lookupJob, if_neg hk]
      cases h with
      | head => exact absurd rfl hk
      | tail _ h2 => exact ih h2

lemma lookupJob_nodup {s : Snapshot} {j c : String}
    (hs : (s.map Prod.fst).Nodup) (h : (j, c) ∈ s) : lookupJob s j = some c := by
  induction s with
  | nil => cases h
  | cons q rest ih =>
    obtain ⟨k, v⟩ := q
    rw [List.map_cons, List.nodup_cons] at hs
    cases h with
    | head => simp [lookupJob]
    | tail _ h2 =>
      by_cases hk : k = j
      · subst hk
        exact absurd (List.mem_map_of_mem Prod.fst h2) hs.1
      · simp only [lookupJob, if_neg hk]
        exact ih hs.2 h2

lemma not_mem_keys_of_lookupJob_none {s : Snapshot} {j : String}
    (h : lookupJob s j = none) : j ∉ s.map Prod.fst := by
  intro hmem
  obtain ⟨p, hp, hpj⟩ := List.mem_map.mp hmem
  exact lookupJob_none_forall h p hp hpj

/-! ## Shape lemmas about the diff steps -/

lemma status_change_call_name (funcs : Funcs) (v : Bool)
    (name oc nc : String) :
    callJob (status_change funcs v name oc nc).2 = name := by
  unfold status_change
  split_ifs <;> rfl

lemma status_change_not_deleted (funcs : Funcs) (v : Bool)
    (name oc nc m : String) :
    (status_change funcs v name oc nc).2 ≠ Call.c1 "deleted" m := by
  unfold status_change
  split_ifs <;> intro h <;> simp at h

lemma status_change_snd_indep (f g : Funcs) (v : Bool)
    (name oc nc : String) :
    (status_change f v name oc nc).2 = (status_change g v name oc nc).2 := by
  unfold status_change
  split_ifs <;> rfl

lemma del_f_eq_some {funcs : Funcs} {new : Snapshot} {p : String × String}
    {s : String × String × Call} (h : del_f funcs new p = some s) :
    s = (p.1, call1 funcs "deleted" p.1, Call.c1 "deleted" p.1) ∧
      lookupJob new p.1 = none := by
  unfold del_f at h
  by_cases hsome : (lookupJob new p.1).isSome = true
  · rw [if_pos hsome] at h; cases h
  · rw [if_neg hsome] at h
    injection h with h2
    exact ⟨h2.symm, Option.not_isSome_iff_eq_none.mp hsome⟩

lemma upd_f_name {funcs : Funcs} {v : Bool} {old : Snapshot}
    {p : String × String} {s : String × String × Call}
    (h : upd_f funcs v old p = some s) : s.1 = p.1 := by
  unfold upd_f at h
  split at h
  · injection h with h2; rw [← h2]
  · split at h
    · cases h
    · injection h with h2; rw [← h2]

lemma upd_f_call_name {funcs : Funcs} {v : Bool} {old : Snapshot}
    {p : String × String} {s : String × String × Call}
    (h : upd_f funcs v old p = some s) : callJob s.2.2 = s.1 := by
  unfold upd_f at h
  split at h
  · injection h with h2; rw [← h2]; rfl
  · next oc _ =>
    split at h
    · cases h
    · injection h with h2; rw [← h2]
      exact status_change_call_name funcs v p.1 oc p.2

lemma upd_f_not_deleted {funcs : Funcs} {v : Bool} {old : Snapshot}
    {p : String × String} {s : String × String × Call}
    (h : upd_f funcs v old p = some s) (m : String) :
    s.2.2 ≠ Call.c1 "deleted" m := by
  unfold upd_f at h
  split at h
  · injection h with h2; rw [← h2]; simp
  · next oc _ =>
    split at h
    · cases h
    · injection h with h2; rw [← h2]
      exact status_change_not_deleted funcs v p.1 oc p.2 m

lemma steps_call_name (funcs : Funcs) (v : Bool) (old new : Snapshot) :
    ∀ s ∈ del_steps funcs old new ++ upd_steps funcs v old new,
      callJob s.2.2 = s.1 := by
  intro s hs
  rw [List.mem_append] at hs
  cases hs with
  | inl h =>
    simp only [del_steps, List.mem_filterMap] at h
    obtain ⟨p, _, hfp⟩ := h
    rw [(del_f_eq_some hfp).1]
    rfl
  | inr h =>
    simp only [upd_steps, List.mem_filterMap] at h
    obtain ⟨p, _, hfp⟩ := h
    exact upd_f_call_name hfp

/-! ## Filtering the diff steps by job name -/

lemma del_steps_filter_nil {funcs : Funcs} {old new : Snapshot} {j : String}
    (h : ∀ p ∈ old, p.1 ≠ j) :
    (del_steps funcs old new).filter (fun s => s.1 == j) = [] := by
  rw [List.filter_eq_nil_iff]
  intro s hs
  simp only [del_steps, List.mem_filterMap] at hs
  obtain ⟨p, hp, hfp⟩ := hs
  rw [(del_f_eq_some hfp).1]
  simpa using h p hp

lemma upd_steps_filter_nil {funcs : Funcs} {v : Bool} {old new : Snapshot}
    {j : String} (h : ∀ p ∈ new, p.1 ≠ j) :
    (upd_steps funcs v old new).filter (fun s => s.1 == j) = [] := by
  rw [List.filter_eq_nil_iff]
  intro s hs
  simp only [upd_steps, List.mem_filterMap] at hs
  obtain ⟨p, hp, hfp⟩ := hs
  rw [upd_f_name hfp]
  simpa using h p hp

lemma del_steps_filter_nil_of_isSome {funcs : Funcs} {old new : Snapshot}
    {j : String} (h : (lookupJob new j).isSome = true) :
    (del_steps funcs old new).filter (fun s => s.1 == j) = [] := by
  rw [List.filter_eq_nil_iff]
  intro s hs
  simp only [del_steps, List.mem_filterMap] at hs
  obtain ⟨p, hp, hfp⟩ := hs
  obtain ⟨hshape, hnone⟩ := del_f_eq_some hfp
  rw [hshape]
  have : p.1 ≠ j := by
    intro hpj
    rw [hpj] at hnone
    rw [hnone] at h
    cases h
  simpa using this


lemma key_ne_of_not_mem {rest : Snapshot} {k : String}
    (h : k ∉ rest.map Prod.fst) : ∀ p ∈ rest, p.1 ≠ k := by
  intro p hp hpj
  exact h (hpj ▸ List.mem_map_of_mem Prod.fst hp)

lemma del_steps_filter_single {funcs : Funcs} {old new : Snapshot}
    {j c : String} (hO : (old.map Prod.fst).Nodup)
    (h1 : lookupJob old j = some c) (h2 : lookupJob new j = none) :
    (del_steps funcs old new).filter (fun s => s.1 == j) =
      [(j, call1 funcs "deleted" j, Call.c1 "deleted" j)] := by
  induction old with
  | nil => cases h1
  | cons q rest ih =>
    obtain ⟨k, v⟩ := q
    rw [List.map_cons, List.nodup_cons] at hO
    by_cases hk : k = j
    · subst hk
      have hfa : del_f funcs new (k, v) =
          some (k, call1 funcs "deleted" k, Call.c1 "deleted" k) := by
        unfold del_f
        rw [show ((k, v) : String × String).1 = k from rfl, h2]
        rfl
      have htail : (del_steps funcs rest new).filter (fun s => s.1 == k) = [] :=
        del_steps_filter_nil (key_ne_of_not_mem hO.1)
      simp only [del_steps, List.filterMap_cons, hfa] at htail ⊢
      rw [List.filter_cons_of_pos (by simp), htail]
    · have h1' : lookupJob rest j = some c := by
        simpa only [lookupJob, if_neg hk] using h1
      have htail := ih hO.2 h1'
      cases hfa : del_f funcs new (k, v) with
      | none =>
        have hcons : del_steps funcs ((k, v) :: rest) new =
            del_steps funcs rest new := by
          simp only [del_steps]
          exact List.filterMap_cons_none hfa
        rw [hcons]
        exact htail
      | some s =>
        have hs1 : s.1 = k := by rw [(del_f_eq_some hfa).1]
        have hcons : del_steps funcs ((k, v) :: rest) new =
            s :: del_steps funcs rest new := by
          simp only [del_steps]
          exact List.filterMap_cons_some hfa
        rw [hcons, List.filter_cons_of_neg (by simp [hs1, hk])]
        exact htail

lemma upd_steps_filter_created {funcs : Funcs} {v : Bool} {old new : Snapshot}
    {j c : String} (hN : (new.map Prod.fst).Nodup)
    (h1 : lookupJob old j = none) (h2 : lookupJob new j = some c) :
    (upd_steps funcs v old new).filter (fun s => s.1 == j) =
      [(j, call1 funcs "created" j, Call.c1 "created" j)] := by
  induction new with
  | nil => cases h2
  | cons q rest ih =>
    obtain ⟨k, w⟩ := q
    rw [List.map_cons, List.nodup_cons] at hN
    by_cases hk : k = j
    · subst hk
      have hfa : upd_f funcs v old (k, w) =
          some (k, call1 funcs "created" k, Call.c1 "created" k) := by
        unfold upd_f
        rw [show ((k, w) : String × String).1 = k from rfl, h1]
      have htail : (upd_steps funcs v old rest).filter (fun s => s.1 == k) = [] :=
        upd_steps_filter_nil (key_ne_of_not_mem hN.1)
      simp only [upd_steps, List.filterMap_cons, hfa] at htail ⊢
      rw [List.filter_cons_of_pos (by simp), htail]
    · have h2' : lookupJob rest j = some c := by
        simpa only [lookupJob, if_neg hk] using h2
      have htail := ih hN.2 h2'
      cases hfa : upd_f funcs v old (k, w) with
      | none =>
        have hcons : upd_steps funcs v old ((k, w) :: rest) =
            upd_steps funcs v old rest := by
          simp only [upd_steps]
          exact List.filterMap_cons_none hfa
        rw [hcons]
        exact htail
      | some s =>
        have hs1 : s.1 = k := upd_f_name hfa
        have hcons : upd_steps funcs v old ((k, w) :: rest) =
            s :: upd_steps funcs v old rest := by
          simp only [upd_steps]
          exact List.filterMap_cons_some hfa
        rw [hcons, List.filter_cons_of_neg (by simp [hs1, hk])]
        exact htail

lemma upd_steps_filter_unchanged {funcs : Funcs} {v : Bool} {old new : Snapshot}
    {j c : String} (hN : (new.map Prod.fst).Nodup)
    (h1 : lookupJob old j = some c) (h2 : lookupJob new j = some c) :
    (upd_steps funcs v old new).filter (fun s => s.1 == j) = [] := by
  induction new with
  | nil => cases h2
  | cons q rest ih =>
    obtain ⟨k, w⟩ := q
    rw [List.map_cons, List.nodup_cons] at hN
    by_cases hk : k = j
    · subst hk
      have hw : w = c := by
        have h3 := h2
        simp only [lookupJob, if_pos rfl] at h3
        injection h3
      subst hw
      have hfa : upd_f funcs v old (k, w) = none := by
        unfold upd_f
        rw [show ((k, w) : String × String).1 = k from rfl, h1]
        simp
      have htail : (upd_steps funcs v old rest).filter (fun s => s.1 == k) = [] :=
        upd_steps_filter_nil (key_ne_of_not_mem hN.1)
      simp only [upd_steps, List.filterMap_cons, hfa] at htail ⊢
      exact htail
    · have h2' : lookupJob rest j = some c := by
        simpa only [lookupJob, if_neg hk] using h2
      have htail := ih hN.2 h2'
      cases hfa : upd_f funcs v old (k, w) with
      | none =>
        have hcons : upd_steps funcs v old ((k, w) :: rest) =
            upd_steps funcs v old rest := by
          simp only [upd_steps]
          exact List.filterMap_cons_none hfa
        rw [hcons]
        exact htail
      | some s =>
        have hs1 : s.1 = k := upd_f_name hfa
        have hcons : upd_steps funcs v old ((k, w) :: rest) =
            s :: upd_steps funcs v old rest := by
          simp only [upd_steps]
          exact List.filterMap_cons_some hfa
        rw [hcons, List.filter_cons_of_neg (by simp [hs1, hk])]
        exact htail

/-! ## Composition lemmas -/

lemma offline_update_fst (funcs : Funcs) (v : Bool) (old new : Snapshot) :
    (offline_update funcs v old new).1 =
      (del_steps funcs old new ++ upd_steps funcs v old new).map
        (fun s => (s.1, s.2.1)) := rfl

lemma offline_update_snd (funcs : Funcs) (v : Bool) (old new : Snapshot) :
    (offline_update funcs v old new).2 =
      (del_steps funcs old new ++ upd_steps funcs v old new).map
        (fun s => s.2.2) := rfl

lemma trace_filter_eq (funcs : Funcs) (v : Bool) (old new : Snapshot)
    (j : String) :
    (offline_update funcs v old new).2.filter (fun cl => callJob cl == j) =
      ((del_steps funcs old new ++ upd_steps funcs v old new).filter
        (fun s => s.1 == j)).map (fun s => s.2.2) := by
  rw [offline_update_snd, List.filter_map]
  congr 1
  apply List.filter_congr
  intro s hs
  simp only [Function.comp_apply]
  rw [steps_call_name funcs v old new s hs]

lemma changes_filter_eq (funcs : Funcs) (v : Bool) (old new : Snapshot)
    (j : String) :
    (offline_update funcs v old new).1.filter (fun p => p.1 == j) =
      ((del_steps funcs old new ++ upd_steps funcs v old new).filter
        (fun s => s.1 == j)).map (fun s => (s.1, s.2.1)) := by
  rw [offline_update_fst, List.filter_map]
  congr 1

lemma del_steps_trace_indep (f g : Funcs) (old new : Snapshot) :
    (del_steps f old new).map (fun s => s.2.2) =
      (del_steps g old new).map (fun s => s.2.2) := by
  induction old with
  | nil => rfl
  | cons p rest ih =>
    simp only [del_steps] at ih ⊢
    by_cases hs : (lookupJob new p.1).isSome = true
    · have hf : del_f f new p = none := by unfold del_f; rw [if_pos hs]
      have hg : del_f g new p = none := by unfold del_f; rw [if_pos hs]
      rw [List.filterMap_cons_none hf, List.filterMap_cons_none hg]
      exact ih
    · have hf : del_f f new p =
          some (p.1, call1 f "deleted" p.1, Call.c1 "deleted" p.1) := by
        unfold del_f; rw [if_neg hs]
      have hg : del_f g new p =
          some (p.1, call1 g "deleted" p.1, Call.c1 "deleted" p.1) := by
        unfold del_f; rw [if_neg hs]
      rw [List.filterMap_cons_some hf, List.filterMap_cons_some hg,
        List.map_cons, List.map_cons, ih]

lemma upd_steps_trace_indep (f g : Funcs) (v : Bool) (old new : Snapshot) :
    (upd_steps f v old new).map (fun s => s.2.2) =
      (upd_steps g v old new).map (fun s => s.2.2) := by
  induction new with
  | nil => rfl
  | cons p rest ih =>
    simp only [upd_steps] at ih ⊢
    cases hl : lookupJob old p.1 with
    | none =>
      have hf : upd_f f v old p =
          some (p.1, call1 f "created" p.1, Call.c1 "created" p.1) := by
        unfold upd_f; rw [hl]
      have hg : upd_f g v old p =
          some (p.1, call1 g "created" p.1, Call.c1 "created" p.1) := by
        unfold upd_f; rw [hl]
      rw [List.filterMap_cons_some hf, List.filterMap_cons_some hg,
        List.map_cons, List.map_cons, ih]
    | some oc =>
      by_cases hv : p.2 = oc
      · have hf : upd_f f v old p = none := by simp [upd_f, hl, hv]
        have hg : upd_f g v old p = none := by simp [upd_f, hl, hv]
        rw [List.filterMap_cons_none hf, List.filterMap_cons_none hg]
        exact ih
      · have hf : upd_f f v old p =
            some (p.1, status_change f v p.1 oc p.2) := by
          simp [upd_f, hl, hv]
        have hg : upd_f g v old p =
            some (p.1, status_change g v p.1 oc p.2) := by
          simp [upd_f, hl, hv]
        rw [List.filterMap_cons_some hf, List.filterMap_cons_some hg,
          List.map_cons, List.map_cons, ih]
        simp only [List.cons.injEq, and_true]
        exact status_change_snd_indep f g v p.1 oc p.2

lemma offline_update_trace_indep (f g : Funcs) (v : Bool)
    (old new : Snapshot) :
    (offline_update f v old new).2 = (offline_update g v old new).2 := by
  rw [offline_update_snd, offline_update_snd, List.map_append, List.map_append,
    del_steps_trace_indep f g, upd_steps_trace_indep f g]

/-! ## Helpers about `update` and persistence -/

lemma update_state_eq (st : Jenkins) (f : Snapshot) :
    (update st f).state = dump_step { st with jobs := some f } := by
  unfold update
  split <;> rfl

lemma update_changes_none (st : Jenkins) (f : Snapshot) :
    (update st f).changes = none := by
  unfold update
  split <;> rfl

lemma update_trace_first_run (st : Jenkins) (f : Snapshot)
    (h : jobsFalsy st.jobs = true) : (update st f).trace = [] := by
  unfold update
  rw [if_pos h]

lemma update_trace_diff (st : Jenkins) (f : Snapshot)
    (h : jobsFalsy st.jobs = false) :
    (update st f).trace =
      (offline_update st.funcs st.verbose (st.jobs.getD []) f).2 := by
  unfold update
  rw [if_neg (by rw [h]; exact Bool.false_ne_true)]

lemma dump_step_jobs (st : Jenkins) : (dump_step st).jobs = st.jobs := by
  unfold dump_step
  split <;> rfl

lemma update_state_jobs (st : Jenkins) (f : Snapshot) :
    (update st f).state.jobs = some f := by
  rw [update_state_eq, dump_step_jobs]

lemma string_append_left_cancel {s a b : String} (h : s ++ a = s ++ b) :
    a = b := by
  have h2 := congrArg String.data h
  rw [String.data_append, String.data_append] at h2
  exact String.ext (List.append_cancel_left h2)

lemma pathJoin_right_ne {d : String} {a b : String} (h : a ≠ b) :
    pathJoin d a ≠ pathJoin d b := by
  unfold pathJoin
  split_ifs with h1 h2
  · exact h
  · exact fun heq => h (string_append_left_cancel heq)
  · exact fun heq => h (string_append_left_cancel heq)

lemma update_persists (st : Jenkins) (f : Snapshot) (h : st.directory ≠ "") :
    (update st f).state.files (pathJoin st.directory "jenkins_jobs.json") =
      some (FileData.jsonData (some f)) ∧
    (update st f).state.files (pathJoin st.directory "jenkins_server.txt") =
      some (FileData.textData st.url) := by
  rw [update_state_eq]
  unfold dump_step
  rw [if_neg (show ¬({ st with jobs := some f } : Jenkins).directory = "" from h)]
  have hne : pathJoin st.directory "jenkins_jobs.json" ≠
      pathJoin st.directory "jenkins_server.txt" :=
    pathJoin_right_ne (by decide)
  constructor
  · show fsWrite
        (fsWrite st.files (pathJoin st.directory "jenkins_jobs.json")
          (FileData.jsonData (some f)))
        (pathJoin st.directory "jenkins_server.txt") (FileData.textData st.url)
        (pathJoin st.directory "jenkins_jobs.json") =
      some (FileData.jsonData (some f))
    unfold fsWrite
    rw [if_neg hne, if_pos rfl]
  · show fsWrite
        (fsWrite st.files (pathJoin st.directory "jenkins_jobs.json")
          (FileData.jsonData (some f)))
        (pathJoin st.directory "jenkins_server.txt") (FileData.textData st.url)
        (pathJoin st.directory "jenkins_server.txt") =
      some (FileData.textData st.url)
    unfold fsWrite
    rw [if_pos rfl]

/-! ## Lemmas for URL normalization -/

lemma dropLeadingSlashes_shape {m l : List Char}
    (h : dropLeadingSlashes m = some l) :
    ∃ c rest, l = c :: rest ∧ c ≠ '/' := by
  induction m with
  | nil => cases h
  | cons c rest ih =>
    by_cases hc : c = '/'
    · simp only [dropLeadingSlashes, if_pos hc] at h
      exact ih h
    · simp only [dropLeadingSlashes, if_neg hc] at h
      injection h with h2
      exact ⟨c, rest, h2.symm, hc⟩

lemma stripTrailing_last {url u : String} (h : stripTrailing url = some u) :
    u.data ≠ [] ∧ u.data.getLast? ≠ some '/' := by
  unfold stripTrailing at h
  cases hd : dropLeadingSlashes url.data.reverse with
  | none => rw [hd] at h; cases h
  | some l =>
    rw [hd] at h
    obtain ⟨c, rest, hl, hc⟩ := dropLeadingSlashes_shape hd
    subst hl
    injection h with h2
    rw [← h2]
    constructor
    · simp
    · rw [show (String.mk (c :: rest).reverse).data = (c :: rest).reverse
        from rfl]
      rw [List.getLast?_reverse]
      intro hcontra
      injection hcontra with h3
      exact hc h3

/-! ## The claims -/

/-- Claim C1: for every pair of indicators, if the new one carries the
`"anime"` running marker and the old one does not, `status_change`
dispatches the `"started"` handler (`BuildStarted`), regardless of either
indicator's outcome class: the running rule is the first branch, taking
priority over the aborted/failed/passed rules. -/
theorem C1_running_transition_started (funcs : Funcs) (v : Bool)
    (name old_color new_color : String)
    (h1 : strContains new_color "anime" = true)
    (h2 : strContains old_color "anime" = false) :
    status_change funcs v name old_color new_color =
      (call1 funcs "started" name, Call.c1 "started" name) := by
  unfold status_change
  rw [h1, h2]
  rfl

/-- Witness for C1 at a concrete input: transition from the non-running
`"aborted"` indicator into the running-aborted `"aborted_anime"` indicator
is classified as started, not aborted. -/
theorem C1_witness :
    status_change allOk false "jobA" "aborted" "aborted_anime" =
      (call1 allOk "started" "jobA", Call.c1 "started" "jobA") :=
  C1_running_transition_started allOk false "jobA" "aborted" "aborted_anime"
    (by decide) (by decide)

/-- Claim C2: on a first-ever reconciliation (`self.jobs` is `None`),
`update` adopts the fetched snapshot as current, persists it together with
the server URL, returns `None`, and performs zero handler calls — even
when the fetched snapshot is non-empty. -/
theorem C2_first_run_no_events (st : Jenkins) (f : Snapshot)
    (h1 : st.jobs = none) (h2 : st.directory ≠ "") :
    (update st f).changes = none ∧
    (update st f).trace = [] ∧
    (update st f).state.jobs = some f ∧
    (update st f).state.files (pathJoin st.directory "jenkins_jobs.json") =
      some (FileData.jsonData (some f)) ∧
    (update st f).state.files (pathJoin st.directory "jenkins_server.txt") =
      some (FileData.textData st.url) := by
  obtain ⟨hp1, hp2⟩ := update_persists st f h2
  exact ⟨update_changes_none st f,
    update_trace_first_run st f (by rw [h1]; rfl),
    update_state_jobs st f, hp1, hp2⟩

def witness_state : Jenkins :=
  { url := "https://ci.example.com", verbose := false, directory := "d",
    funcs := allOk, jobs := none, files := emptyFS }

/-- Witness for C2 at a concrete state with a non-empty fetched snapshot. -/
theorem C2_witness :
    (update witness_state [("A", "blue")]).changes = none ∧
    (update witness_state [("A", "blue")]).trace = [] ∧
    (update witness_state [("A", "blue")]).state.jobs = some [("A", "blue")] ∧
    (update witness_state [("A", "blue")]).state.files
      (pathJoin "d" "jenkins_jobs.json") =
      some (FileData.jsonData (some [("A", "blue")])) ∧
    (update witness_state [("A", "blue")]).state.files
      (pathJoin "d" "jenkins_server.txt") =
      some (FileData.textData "https://ci.example.com") :=
  C2_first_run_no_events witness_state [("A", "blue")] rfl (by decide)

def c3_prior : Jenkins :=
  { url := "https://ci.example.com", verbose := false, directory := "d",
    funcs := allOk, jobs := some [("A", "red")], files := emptyFS }

/-- Claim C3 (code bug): `update` returns `None` for every state and every
fetched snapshot, because `offline_update` builds its per-job `changes`
mapping but has no return statement. At the failing input
(prior `{"A": "red"}`, new `{"A": "blue"}`) the discarded internal mapping
is `{"A": "passed"}`, which the claim says `update` should return; on a
first run it returns `None` as well, not an empty list. -/
theorem C3_update_always_returns_none :
    (∀ (st : Jenkins) (f : Snapshot), (update st f).changes = none) ∧
    (offline_update allOk false [("A", "red")] [("A", "blue")]).1 =
      [("A", "passed")] ∧
    (update c3_prior [("A", "blue")]).changes = none ∧
    (update { c3_prior with jobs := none } [("A", "blue")]).changes = none :=
  ⟨update_changes_none, by decide, by decide, by decide⟩

/-- Claim C4: with a prior snapshot, a job present only in the old snapshot
yields exactly one dispatched event, a deletion; a job present only in the
new snapshot yields exactly one dispatched event, a creation (never a
build-outcome event); and the dispatch trace is the deletion calls followed
by the creation/change calls, which are never deletion calls. -/
theorem C4_exactly_one_event_and_order (funcs : Funcs) (v : Bool)
    (old new : Snapshot) (j c : String)
    (hO : (old.map Prod.fst).Nodup) (hN : (new.map Prod.fst).Nodup) :
    (lookupJob old j = some c → lookupJob new j = none →
      (offline_update funcs v old new).2.filter (fun cl => callJob cl == j) =
        [Call.c1 "deleted" j]) ∧
    (lookupJob old j = none → lookupJob new j = some c →
      (offline_update funcs v old new).2.filter (fun cl => callJob cl == j) =
        [Call.c1 "created" j]) ∧
    ((offline_update funcs v old new).2 =
      (del_steps funcs old new).map (fun s => s.2.2) ++
        (upd_steps funcs v old new).map (fun s => s.2.2)) ∧
    (∀ cl ∈ (del_steps funcs old new).map (fun s => s.2.2),
      cl = Call.c1 "deleted" (callJob cl)) ∧
    (∀ cl ∈ (upd_steps funcs v old new).map (fun s => s.2.2),
      ∀ n, cl ≠ Call.c1 "deleted" n) := by
  refine ⟨?_, ?_, ?_, ?_, ?_⟩
  · intro h1 h2
    rw [trace_filter_eq, List.filter_append,
      del_steps_filter_single hO h1 h2,
      upd_steps_filter_nil (lookupJob_none_forall h2)]
    rfl
  · intro h1 h2
    rw [trace_filter_eq, List.filter_append,
      del_steps_filter_nil (lookupJob_none_forall h1),
      upd_steps_filter_created hN h1 h2]
    rfl
  · rw [offline_update_snd, List.map_append]
  · intro cl hcl
    rw [List.mem_map] at hcl
    obtain ⟨s, hs, hcl2⟩ := hcl
    simp only [del_steps, List.mem_filterMap] at hs
    obtain ⟨p, hp, hfp⟩ := hs
    rw [← hcl2, (del_f_eq_some hfp).1]
    rfl
  · intro cl hcl n
    rw [List.mem_map] at hcl
    obtain ⟨s, hs, hcl2⟩ := hcl
    simp only [upd_steps, List.mem_filterMap] at hs
    obtain ⟨p, hp, hfp⟩ := hs
    rw [← hcl2]
    exact upd_f_not_deleted hfp n

/-- Witness for C4: job `"A"` present only in the old snapshot produces
exactly one dispatched call, the deletion. -/
theorem C4_witness :
    (offline_update allOk false [("A", "red"), ("B", "blue")]
      [("B", "blue"), ("C", "grey")]).2.filter
        (fun cl => callJob cl == "A") = [Call.c1 "deleted" "A"] :=
  (C4_exactly_one_event_and_order allOk false [("A", "red"), ("B", "blue")]
    [("B", "blue"), ("C", "grey")] "A" "red" (by decide) (by decide)).1
    (by decide) (by decide)

/-- Claim C5: diffing a snapshot against itself produces no changes and no
handler calls; more generally a job present in both snapshots with an
unchanged indicator contributes no change entry and no handler call. -/
theorem C5_self_diff_empty_unchanged_silent (funcs : Funcs) (v : Bool) :
    (∀ A : Snapshot, (A.map Prod.fst).Nodup →
      offline_update funcs v A A = ([], [])) ∧
    (∀ old new : Snapshot, ∀ j c : String,
      (new.map Prod.fst).Nodup →
      lookupJob old j = some c → lookupJob new j = some c →
      (∀ p ∈ (offline_update funcs v old new).1, p.1 ≠ j) ∧
      (∀ cl ∈ (offline_update funcs v old new).2, callJob cl ≠ j)) := by
  constructor
  · intro A hA
    have hdel : del_steps funcs A A = [] := by
      simp only [del_steps, List.filterMap_eq_nil_iff]
      intro p hp
      unfold del_f
      rw [if_pos (lookupJob_isSome_of_mem hp)]
    have hupd : upd_steps funcs v A A = [] := by
      simp only [upd_steps, List.filterMap_eq_nil_iff]
      intro p hp
      have hlook : lookupJob A p.1 = some p.2 :=
        lookupJob_nodup hA (by rw [Prod.mk.eta]; exact hp)
      simp [upd_f, hlook]
    have g1 : (offline_update funcs v A A).1 = [] := by
      rw [offline_update_fst, hdel, hupd]
      rfl
    have g2 : (offline_update funcs v A A).2 = [] := by
      rw [offline_update_snd, hdel, hupd]
      rfl
    exact Prod.ext g1 g2
  · intro old new j c hN h1 h2
    have hsteps : (del_steps funcs old new ++
        upd_steps funcs v old new).filter (fun s => s.1 == j) = [] := by
      rw [List.filter_append,
        del_steps_filter_nil_of_isSome (by rw [h2]; rfl),
        upd_steps_filter_unchanged hN h1 h2]
      rfl
    have hall : ∀ s ∈ del_steps funcs old new ++ upd_steps funcs v old new,
        s.1 ≠ j := by
      intro s hs
      have h3 := List.filter_eq_nil_iff.mp hsteps s hs
      simpa using h3
    constructor
    · intro p hp
      rw [offline_update_fst, List.mem_map] at hp
      obtain ⟨s, hs, hps⟩ := hp
      rw [← hps]
      exact hall s hs
    · intro cl hcl
      rw [offline_update_snd, List.mem_map] at hcl
      obtain ⟨s, hs, hcs⟩ := hcl
      rw [← hcs, steps_call_name funcs v old new s hs]
      exact hall s hs

/-- Witness for C5: a one-job snapshot diffed against itself. -/
theorem C5_witness :
    offline_update allOk false [("A", "blue")] [("A", "blue")] = ([], []) :=
  (C5_self_diff_empty_unchanged_silent allOk false).1 [("A", "blue")]
    (by decide)

/-- Claim C6: when the deletion handler raises for job `j`, that job's
recorded outcome is the `"function-error"` marker; the dispatch trace is
identical to the one obtained with any other handler table (so every other
job's diff and dispatch still happens); and the persistence step still
writes the new snapshot. -/
theorem C6_handler_failure_isolated (funcs funcs2 : Funcs) (v : Bool)
    (old new : Snapshot) (j c : String) (st : Jenkins)
    (hO : (old.map Prod.fst).Nodup)
    (h1 : lookupJob old j = some c) (h2 : lookupJob new j = none)
    (hfail : funcs.deleted j = false) (hdir : st.directory ≠ "") :
    (offline_update funcs v old new).1.filter (fun p => p.1 == j) =
      [(j, "function-error")] ∧
    (offline_update funcs v old new).2 =
      (offline_update funcs2 v old new).2 ∧
    (update st new).state.files (pathJoin st.directory "jenkins_jobs.json") =
      some (FileData.jsonData (some new)) := by
  refine ⟨?_, offline_update_trace_indep funcs funcs2 v old new,
    (update_persists st new hdir).1⟩
  rw [changes_filter_eq, List.filter_append,
    del_steps_filter_single hO h1 h2,
    upd_steps_filter_nil (lookupJob_none_forall h2)]
  have hcall : call1 funcs "deleted" j = "function-error" := by
    have h3 : call1 funcs "deleted" j =
        if funcs.deleted j then "deleted" else "function-error" := rfl
    rw [h3, hfail]
    rfl
  simp [hcall]

def c6_state : Jenkins :=
  { url := "https://ci.example.com", verbose := false, directory := "d",
    funcs := failDeleted, jobs := some [("A", "red"), ("B", "blue")],
    files := emptyFS }

/-- Witness for C6: the deletion handler raises for `"A"`; `"A"` gets the
error marker, the trace matches the all-succeeding table, and the new
snapshot is persisted. -/
theorem C6_witness :
    (offline_update failDeleted false [("A", "red"), ("B", "blue")]
        [("B", "red")]).1.filter (fun p => p.1 == "A") =
      [("A", "function-error")] ∧
    (offline_update failDeleted false [("A", "red"), ("B", "blue")]
        [("B", "red")]).2 =
      (offline_update allOk false [("A", "red"), ("B", "blue")]
        [("B", "red")]).2 ∧
    (update c6_state [("B", "red")]).state.files
        (pathJoin "d" "jenkins_jobs.json") =
      some (FileData.jsonData (some [("B", "red")])) :=
  C6_handler_failure_isolated failDeleted allOk false
    [("A", "red"), ("B", "blue")] [("B", "red")] "A" "red" c6_state
    (by decide) (by decide) (by decide) (by decide) (by decide)

/-- Claim C7: when the stored server URL does not match the configured one,
loading leaves the engine without a prior snapshot, and the next
reconciliation behaves exactly as a first-ever run: no return value, no
handler calls, the new snapshot adopted and persisted. -/
theorem C7_identity_mismatch_first_run (st : Jenkins) (content : String)
    (f : Snapshot) (h0 : st.jobs = none)
    (h1 : st.files (pathJoin st.directory "jenkins_server.txt") =
      some (FileData.textData content))
    (h2 : readLine content ≠ st.url) (h3 : st.directory ≠ "") :
    try_load_files st = st ∧
    (update (try_load_files st) f).changes = none ∧
    (update (try_load_files st) f).trace = [] ∧
    (update (try_load_files st) f).state.jobs = some f ∧
    (update (try_load_files st) f).state.files
      (pathJoin st.directory "jenkins_jobs.json") =
      some (FileData.jsonData (some f)) := by
  have hload : try_load_files st = st := by
    unfold try_load_files
    split
    · next content2 heq =>
      rw [h1] at heq
      injection heq with heq2
      injection heq2 with heq3
      subst heq3
      rw [if_neg h2]
    · rfl
  rw [hload]
  exact ⟨rfl, update_changes_none st f,
    update_trace_first_run st f (by rw [h0]; rfl),
    update_state_jobs st f, (update_persists st f h3).1⟩

def c7_state : Jenkins :=
  { url := "https://ci.example.com", verbose := false, directory := "d",
    funcs := allOk, jobs := none,
    files := fsWrite emptyFS (pathJoin "d" "jenkins_server.txt")
      (FileData.textData "https://other.example.com") }

/-- Witness for C7 at a concrete state whose stored URL differs from the
configured one. -/
theorem C7_witness :
    try_load_files c7_state = c7_state ∧
    (update (try_load_files c7_state) [("A", "blue")]).changes = none ∧
    (update (try_load_files c7_state) [("A", "blue")]).trace = [] ∧
    (update (try_load_files c7_state) [("A", "blue")]).state.jobs =
      some [("A", "blue")] ∧
    (update (try_load_files c7_state) [("A", "blue")]).state.files
      (pathJoin "d" "jenkins_jobs.json") =
      some (FileData.jsonData (some [("A", "blue")])) :=
  C7_identity_mismatch_first_run c7_state "https://other.example.com"
    [("A", "blue")] rfl (by decide) (by decide) (by decide)

def c8_saved : Jenkins :=
  { url := "https://ci.example.com", verbose := false, directory := ".",
    funcs := allOk, jobs := some [("A", "blue")], files := emptyFS }

def c8_reloaded : Jenkins :=
  { c8_saved with jobs := none, files := dump_all c8_saved }

/-- Claim C8 (code bug): with the constructor-default directory `"."`,
`dump_all` writes the snapshot at `os.path.join(".", "jenkins_jobs.json")`
= `"./jenkins_jobs.json"`, but `load_files` reads the snapshot from the
concatenation `"." + "jenkins_jobs.json"` = `".jenkins_jobs.json"`, a path
nothing wrote. The stored server URL matches, yet reloading leaves
`jobs = None`: save followed by load does not round-trip. -/
theorem C8_roundtrip_broken_at_default_dir :
    pathJoin "." "jenkins_jobs.json" = "./jenkins_jobs.json" ∧
    ("." ++ "jenkins_jobs.json" : String) = ".jenkins_jobs.json" ∧
    c8_reloaded.files (pathJoin "." "jenkins_jobs.json") =
      some (FileData.jsonData (some [("A", "blue")])) ∧
    c8_reloaded.files ("." ++ "jenkins_jobs.json") = none ∧
    readLine "https://ci.example.com" = c8_reloaded.url ∧
    (try_load_files c8_reloaded).jobs = none := by
  decide

/-- Claim C9 (counterexample): `"myhttpserver.com"` is non-empty and
accepted by the constructor; it contains `"http"` as a substring, so
nothing is prepended, and the resulting identity begins with no URL scheme
(it has no `':'` at all, in particular neither an `"http://"` nor an
`"https://"` prefix). -/
theorem C9_counterexample :
    init_url "myhttpserver.com" = some "myhttpserver.com" ∧
    ("http://".data.isPrefixOf "myhttpserver.com".data) = false ∧
    ("https://".data.isPrefixOf "myhttpserver.com".data) = false ∧
    ("myhttpserver.com".data.contains ':') = false := by
  decide

/-- Claim C9 amended: for every URL accepted at construction the resulting
identity never ends in `'/'`, and `"https://"` is prepended exactly when
the stripped input does not contain the substring `"http"`; when it does
contain `"http"` anywhere, the input is kept as-is and need not begin with
a scheme. -/
theorem C9_amended_normalization (url u : String)
    (h : stripTrailing url = some u) :
    ∃ res, init_url url = some res ∧
      res.data.getLast? ≠ some '/' ∧
      (strContains u "http" = true → res = u) ∧
      (strContains u "http" = false → res = "https://" ++ u) := by
  obtain ⟨hne, hlast⟩ := stripTrailing_last h
  refine ⟨if strContains u "http" then u else "https://" ++ u, ?_, ?_, ?_, ?_⟩
  · unfold init_url
    rw [h]
    rfl
  · by_cases hc : strContains u "http" = true
    · rw [if_pos hc]
      exact hlast
    · rw [if_neg hc, String.data_append,
        List.getLast?_append_of_ne_nil _ hne]
      exact hlast
  · intro hc
    rw [if_pos hc]
  · intro hc
    rw [if_neg (by rw [hc]; exact Bool.false_ne_true)]

/-- Witness for the amended C9 at a concrete input with a trailing slash
and no scheme. -/
theorem C9_witness :
    ∃ res, init_url "ci.example.com/" = some res ∧
      res.data.getLast? ≠ some '/' ∧
      (strContains "ci.example.com" "http" = true →
        res = "ci.example.com") ∧
      (strContains "ci.example.com" "http" = false →
        res = "https://" ++ "ci.example.com") :=
  C9_amended_normalization "ci.example.com/" "ci.example.com" (by decide)

/-- Claim C10: an empty (but present) prior snapshot is falsy in
`if not self.jobs:`, so `update` behaves exactly as if no prior snapshot
existed: same result, no handler calls (in particular no created events),
`None` returned, and the new snapshot adopted. -/
theorem C10_empty_prior_acts_as_first_run (st : Jenkins) (f : Snapshot)
    (h : st.jobs = some []) :
    update st f = update { st with jobs := none } f ∧
    (update st f).trace = [] ∧
    (update st f).changes = none ∧
    (update st f).state.jobs = some f := by
  have h1 : jobsFalsy st.jobs = true := by rw [h]; rfl
  refine ⟨?_, update_trace_first_run st f h1, update_changes_none st f,
    update_state_jobs st f⟩
  unfold update
  rw [if_pos h1,
    if_pos (show jobsFalsy ({ st with jobs := none } : Jenkins).jobs = true
      from rfl)]

def c10_state : Jenkins :=
  { url := "https://ci.example.com", verbose := false, directory := "d",
    funcs := allOk, jobs := some [], files := emptyFS }

/-- Witness for C10: the empty-snapshot state behaves like the `None`
state on a non-empty fetched snapshot. -/
theorem C10_witness :
    update c10_state [("A", "blue")] =
      update { c10_state with jobs := none } [("A", "blue")] ∧
    (update c10_state [("A", "blue")]).trace = [] ∧
    (update c10_state [("A", "blue")]).changes = none ∧
    (update c10_state [("A", "blue")]).state.jobs = some [("A", "blue")] :=
  C10_empty_prior_acts_as_first_run c10_state [("A", "blue")] rfl

end JenkinsStatus
